import Mathlib

/-!
Verification development for the `fbonnardot` signal-processing toolkit.

We give a shallow embedding of the three analysed routines —
`syncAv` (cyclostationarity/syncAv.py), `circShift` (signalproc/circShift.py)
and `synchronisation2` (speed/synchronisation2.py) — and prove or refute the
frozen behavioural claims about them.

Modelling conventions:
* numpy float64 values are modelled by `ℚ` wherever the computation stays in
  the rational field (all of `syncAv`'s integer path, the estimation loop and
  ensemble phase of `synchronisation2`); the FFT-based fractional shift of
  `circShift` works with `ℂ`/`ℝ`.
* numpy arrays are Lean lists; a 2-D array is a list of equal-length rows.
* `raise ValueError`, numpy `IndexError`s and dtype `TypeError`s are modelled
  by `Except.error` with a short message; `warnings.warn` is modelled by a
  list of warning tags carried in the result.
* External scipy/fft collaborators that are not expressible as exact rational
  functions (cubic spline interpolation, the cepstrum pipeline) are passed as
  explicit total-function parameters ("oracles"); every theorem that involves
  them holds for all instantiations.
-/

set_option maxRecDepth 4000

namespace PyShare

/-- Python `int()` applied to a float: truncation toward zero. -/
def pyInt (q : ℚ) : ℤ := if 0 ≤ q then ⌊q⌋ else ⌈q⌉

/-- `np.round`: rounding half to even (banker's rounding). -/
def npRound (q : ℚ) : ℤ :=
  if q - ⌊q⌋ < 1/2 then ⌊q⌋
  else if 1/2 < q - ⌊q⌋ then ⌊q⌋ + 1
  else if Even ⌊q⌋ then ⌊q⌋ else ⌊q⌋ + 1

/-- `np.argmax` over a rational list: index of the first occurrence of the
maximum, `0` on the empty list. -/
def argmaxAux : List ℚ → ℕ → ℕ → ℚ → ℕ
  | [], _, best, _ => best
  | x :: xs, i, best, bv =>
      if bv < x then argmaxAux xs (i+1) i x else argmaxAux xs (i+1) best bv

/-- `np.argmax` (first index attaining the maximum). -/
def argmaxIdx : List ℚ → ℕ
  | [] => 0
  | x :: xs => argmaxAux xs 1 0 x

/-- `np.tile(v, k)` for a 1-D array: `k` copies of `v` concatenated. -/
def npTile (v : List ℚ) (k : ℕ) : List ℚ := (List.replicate k v).flatten

/-- `np.reshape(v, [r, c])` of a flat (row-major) array into `r` rows of
`c` entries. Out-of-range reads default to `0`; all uses are in range. -/
def npReshape2 (v : List ℚ) (r c : ℕ) : List (List ℚ) :=
  (List.range r).map (fun i => (List.range c).map (fun j => v.getD (i*c+j) 0))

/-- `np.mean(m, axis=0)` for a matrix whose rows have length `c`:
columnwise sum divided by the number of rows. -/
def npMeanAxis0 (m : List (List ℚ)) (c : ℕ) : List ℚ :=
  (List.range c).map (fun j => ((m.map (fun row => row.getD j 0)).sum) / m.length)

/-- numpy basic integer indexing: indices in `[-len, len)` are valid and
negative indices wrap from the end; anything else is an `IndexError`. -/
def npIndex (v : List ℚ) (i : ℤ) : Except String ℚ :=
  if 0 ≤ i ∧ i < (v.length : ℤ) then .ok (v.getD i.toNat 0)
  else if -(v.length : ℤ) ≤ i ∧ i < 0 then .ok (v.getD (v.length + i).toNat 0)
  else .error "IndexError: index out of bounds"

/-- numpy fancy indexing `v[idxs]` with an integer index array: every index
is resolved by `npIndex`; the first out-of-bounds index raises. -/
def npFancy (v : List ℚ) : List ℤ → Except String (List ℚ)
  | [] => .ok []
  | i :: is => do
      let x ← npIndex v i
      let xs ← npFancy v is
      .ok (x :: xs)

/-- Total description of the value numpy basic indexing yields on an
in-range (possibly negative, wrapping) index. -/
def wrapIdx (v : List ℚ) (i : ℤ) : ℚ :=
  if 0 ≤ i then v.getD i.toNat 0 else v.getD (v.length + i).toNat 0

/-! ## Embedding of `syncAv` (src/fbonnardot/cyclostationarity/syncAv.py) -/

/-- The `datas` argument of `syncAv`: a 1-D vector or a 2-D matrix
(one signal per row). -/
inductive NArr where
  | vec (v : List ℚ)
  | mat (m : List (List ℚ))
deriving DecidableEq, Repr

/-- Number of rows `li` (a vector counts as one row, lines 118-122). -/
def NArr.li : NArr → ℕ
  | .vec _ => 1
  | .mat m => m.length

/-- Number of columns `col` (lines 118-122; matrices are rectangular). -/
def NArr.col : NArr → ℕ
  | .vec v => v.length
  | .mat m => (m.headD []).length

/-- The `blocSize` argument: Python distinguishes `int` from `float`
(`type(blocSize) is not int`, line 134), so the embedding does too. -/
inductive PyNum where
  | int (n : ℤ)
  | float (q : ℚ)
deriving DecidableEq, Repr

/-- Numeric value of a `blocSize` argument. -/
def PyNum.val : PyNum → ℚ
  | .int n => n
  | .float q => q

def wTransposed : String := "Number of row>number of column ? 1 row = 1 signal"
def wResample : String := "Not an integer period => resampling."
def wTruncated : String := "The signal does not contain an integer number of periods, it will be truncated."
def wOneBloc : String := "With only 1 bloc it is not synchronous average !!!"

/-- Parameter checks and the transposition warning of `syncAv`
(lines 124-131), shared by the top-level call and the recursive call. -/
def syncAvCheck (li col : ℕ) (bval : ℚ) : Except String (List String) :=
  if (col : ℚ) < bval then .error "The datas must have at least 1 blocs."
  else if bval ≤ 0 then .error "Bloc must be strictly positive."
  else .ok (if col ≤ li then [wTransposed] else [])

/-- Result of `syncAv`: warning tags, synchronous average, number of blocks,
and the residual when requested. -/
structure SyncOut where
  warns : List String
  sav : NArr
  nbBlocs : ℕ
  residu : Option NArr
deriving DecidableEq, Repr

/-- One row of the integer-path average (lines 162-169): reshape the first
`nb*b` samples into `nb` blocks of `b` and take the mean across blocks. -/
def savVec (v : List ℚ) (nb b : ℕ) : List ℚ :=
  npMeanAxis0 (npReshape2 (v.take (nb*b)) nb b) b

/-- One row of the residual (lines 165 and 170):
`datas - np.tile(sav, nbBlocs+1)[0:col]`. -/
def residVec (v sav : List ℚ) (nb col : ℕ) : List ℚ :=
  List.zipWith (fun a c => a - c) v ((npTile sav (nb+1)).take col)

/-- Integer-blocksize path of `syncAv` (lines 150-170), also the target of
the recursive call made by the non-integer path (lines 146-149). -/
def syncAvI (d : NArr) (b : ℤ) (resid : Bool) : Except String SyncOut := do
  let li := d.li
  let col := d.col
  let w ← syncAvCheck li col (b : ℚ)
  let bn := b.toNat
  let nb := col / bn
  let w := w ++ (if col % bn ≠ 0 then [wTruncated] else [])
             ++ (if nb = 1 then [wOneBloc] else [])
  match d with
  | .vec v =>
      let sav := savVec v nb bn
      .ok ⟨w, .vec sav, nb, if resid then some (.vec (residVec v sav nb col)) else none⟩
  | .mat m =>
      let sav := m.map (fun row => savVec row nb bn)
      let residu := List.zipWith (fun row srow => residVec row srow nb col) m sav
      .ok ⟨w, .mat sav, nb, if resid then some (.mat residu) else none⟩

/-- The resampled signal of the non-integer path (lines 141 and 144):
`ifunc(np.arange(1, col, step))` where `ifunc` interpolates the row against
the grid `np.arange(1, col+1)`. `ip row x` is the interpolation oracle
standing for `scipy.interpolate.interp1d(arange(1,col+1), row, 'cubic')(x)`.
`np.arange(1, col, step)` has `⌈(col-1)/step⌉` entries `1 + k·step`. -/
def resampleVec (ip : List ℚ → ℚ → ℚ) (v : List ℚ) (step : ℚ) : List ℚ :=
  (List.range (Nat.ceil (((v.length : ℚ) - 1) / step))).map
    (fun (k : ℕ) => ip v (1 + (k : ℚ) * step))

/-- `syncAv` (lines 118-175). The integer path delegates to `syncAvI`; the
non-integer path re-runs the checks on the original data (lines 124-131),
warns, resamples with step `blocSize/⌈blocSize⌉` and recurses with block
size `⌈blocSize⌉` (lines 133-149), which re-runs the checks on the
resampled data exactly as the Python recursion does.

The matrix branch reproduces the source slip at line 138:
`donnees2 = np.zeros(li, int(np.ceil((col-1)/step)))` passes the resampled
length as the numpy `dtype` argument, producing a 1-D array (or a dtype
`TypeError`), so the subsequent 2-D assignment `donnees2[index,:]` raises:
modelled by `Except.error`. -/
def syncAv (ip : List ℚ → ℚ → ℚ) (d : NArr) (bs : PyNum) (resid : Bool) :
    Except String SyncOut :=
  match bs with
  | .int n => syncAvI d n resid
  | .float q => do
      let li := d.li
      let col := d.col
      let w ← syncAvCheck li col q
      let w := w ++ [wResample]
      let step := q / (⌈q⌉ : ℚ)
      match d with
      | .mat m =>
          if 1 < li then
            .error "numpy error: np.zeros(li, dtype) misuse in the matrix resampling branch"
          else do
            let o ← syncAvI (.mat (m.map (fun row => resampleVec ip row step))) ⌈q⌉ resid
            .ok { o with warns := w ++ o.warns }
      | .vec v => do
          let o ← syncAvI (.vec (resampleVec ip v step)) ⌈q⌉ resid
          .ok { o with warns := w ++ o.warns }

/-- A trivial interpolation oracle (integer-path theorems never consult it). -/
def trivIp : List ℚ → ℚ → ℚ := fun _ _ => 0

/-! ## Index lemmas for the numpy array operations -/

lemma getD_map_range {α : Type} (f : ℕ → α) (n i : ℕ) (d : α) :
    ((List.range n).map f).getD i d = if i < n then f i else d := by
  rcases lt_or_le i n with h | h
  · rw [List.getD_eq_getElem?_getD, List.getElem?_map, List.getElem?_range h]
    simp [h]
  · rw [List.getD_eq_getElem?_getD, List.getElem?_map, List.getElem?_eq_none]
    · simp [not_lt.mpr h]
    · simpa using h

lemma getElem_eq_getD {α : Type} [Inhabited α] (l : List α) (i : ℕ)
    (h : i < l.length) : l[i] = l.getD i default := by
  rw [List.getD_eq_getElem?_getD, List.getElem?_eq_getElem h]
  rfl

lemma getD_take {α : Type} (v : List α) (n i : ℕ) (d : α) (h : i < n) :
    (v.take n).getD i d = v.getD i d := by
  rw [List.getD_eq_getElem?_getD, List.getElem?_take, if_pos h,
    ← List.getD_eq_getElem?_getD]

lemma getD_map {α β : Type} (f : α → β) (l : List α) (i : ℕ) (dα : α)
    (h : i < l.length) : (l.map f).getD i (f dα) = f (l.getD i dα) := by
  rw [List.getD_eq_getElem?_getD, List.getElem?_map,
    List.getElem?_eq_getElem h, List.getD_eq_getElem?_getD,
    List.getElem?_eq_getElem h]
  rfl

lemma map_range_getD {α : Type} (v : List α) (d : α) :
    (List.range v.length).map (fun i => v.getD i d) = v := by
  apply List.ext_getElem (by simp)
  intro i h1 h2
  rw [List.getElem_map, List.getElem_range,
    List.getD_eq_getElem?_getD, List.getElem?_eq_getElem h2]
  rfl

lemma sum_map_range (f : ℕ → ℚ) (n : ℕ) :
    ((List.range n).map f).sum = ∑ i ∈ Finset.range n, f i := by
  induction n with
  | zero => simp
  | succ n ih => rw [List.range_succ, Finset.sum_range_succ, ← ih]; simp

lemma npTile_length (s : List ℚ) (k : ℕ) : (npTile s k).length = k * s.length := by
  induction k with
  | zero => simp [npTile]
  | succ k ih =>
      simp only [npTile, List.replicate_succ, List.flatten_cons] at *
      simp [ih]; ring

lemma npTile_getD (s : List ℚ) (k i : ℕ) (hb : 0 < s.length) (h : i < k * s.length) :
    (npTile s k).getD i 0 = s.getD (i % s.length) 0 := by
  induction k generalizing i with
  | zero => omega
  | succ k ih =>
      have hstep : npTile s (k+1) = s ++ npTile s k := by
        simp [npTile, List.replicate_succ]
      rcases lt_or_le i s.length with hi | hi
      · rw [hstep, List.getD_eq_getElem?_getD, List.getElem?_append,
          if_pos hi, ← List.getD_eq_getElem?_getD, Nat.mod_eq_of_lt hi]
      · rw [hstep, List.getD_eq_getElem?_getD, List.getElem?_append,
          if_neg (not_lt.mpr hi), ← List.getD_eq_getElem?_getD]
        have hexp : (k+1) * s.length = k * s.length + s.length := by ring
        rw [ih (i - s.length) (by omega)]
        congr 1
        conv_rhs => rw [show i = (i - s.length) + s.length by omega]
        rw [Nat.add_mod_right]

/-- The synchronous average row has length `blocSize`. -/
lemma savVec_length (v : List ℚ) (nb b : ℕ) : (savVec v nb b).length = b := by
  simp [savVec, npMeanAxis0]

/-- Closed form of the reshape-then-mean average (lines 162-169): entry `j`
is the mean over the `nb` blocks of the samples at position `j` in a block. -/
lemma savVec_getD (v : List ℚ) (nb b j : ℕ) (hj : j < b) :
    (savVec v nb b).getD j 0
      = (∑ k ∈ Finset.range nb, v.getD (k * b + j) 0) / nb := by
  unfold savVec npMeanAxis0 npReshape2
  rw [getD_map_range _ _ _ _ , if_pos hj, List.map_map, sum_map_range]
  simp only [List.length_map, List.length_range]
  congr 1
  refine Finset.sum_congr rfl (fun k hk => ?_)
  simp only [Function.comp_apply]
  rw [getD_map_range _ _ _ _, if_pos hj]
  refine getD_take _ _ _ _ ?_
  have hk' : k < nb := Finset.mem_range.mp hk
  calc k * b + j < k * b + b := by omega
  _ ≤ nb * b := by nlinarith

lemma residVec_length (v sav : List ℚ) (nb : ℕ)
    (hcol : v.length ≤ (nb+1) * sav.length) :
    (residVec v sav nb v.length).length = v.length := by
  simp [residVec, npTile_length]
  omega

lemma residVec_getD (v sav : List ℚ) (nb i : ℕ) (hb : 0 < sav.length)
    (hcol : v.length ≤ (nb+1) * sav.length) (hi : i < v.length) :
    (residVec v sav nb v.length).getD i 0
      = v.getD i 0 - sav.getD (i % sav.length) 0 := by
  unfold residVec
  have hlen : ((npTile sav (nb+1)).take v.length).length = v.length := by
    simp [npTile_length]; omega
  have hz : (List.zipWith (fun a c => a - c) v
      ((npTile sav (nb+1)).take v.length)).length = v.length := by
    simp [hlen]
  have hiz : i < (List.zipWith (fun a c => a - c) v
      ((npTile sav (nb+1)).take v.length)).length := by omega
  rw [List.getD_eq_getElem?_getD, List.getElem?_eq_getElem hiz]
  simp only [Option.getD_some]
  rw [List.getElem_zipWith]
  congr 1
  · rw [List.getD_eq_getElem?_getD, List.getElem?_eq_getElem hi]
    simp
  · rw [List.getElem_take, getElem_eq_getD _ _ (by simp [npTile_length]; omega)]
    exact npTile_getD sav (nb+1) i hb (by omega)

lemma exceptOkBind {α β : Type} (a : α) (f : α → Except String β) :
    (Except.ok a >>= f : Except String β) = f a := rfl

lemma lt_div_succ_mul (a b : ℕ) (hb : 0 < b) : a < (a / b + 1) * b := by
  have h := Nat.div_add_mod a b
  have h2 := Nat.mod_lt a hb
  nlinarith [h, h2]

lemma getD_map_list (f : List ℚ → List ℚ) (m : List (List ℚ)) (r : ℕ)
    (h : r < m.length) : (m.map f).getD r [] = f (m.getD r []) := by
  rw [List.getD_eq_getElem?_getD, List.getElem?_map,
    List.getElem?_eq_getElem h, List.getD_eq_getElem?_getD,
    List.getElem?_eq_getElem h]
  rfl

/-- Unfolding of the integer path on a vector: with `0 < blocSize ≤ L` the
checks pass and the output is built from `savVec` and `residVec`. -/
lemma syncAvI_vec_ok (v : List ℚ) (b : ℤ) (resid : Bool)
    (hb : 0 < b) (hle : b ≤ (v.length : ℤ)) :
    ∃ w, syncAvI (.vec v) b resid =
      .ok ⟨w, .vec (savVec v (v.length / b.toNat) b.toNat),
        v.length / b.toNat,
        if resid then
          some (.vec (residVec v (savVec v (v.length / b.toNat) b.toNat)
            (v.length / b.toNat) v.length))
        else none⟩ := by
  have h1 : ¬ ((v.length : ℚ) < ((b : ℤ) : ℚ)) := by
    rw [not_lt]
    exact_mod_cast hle
  have h2 : ¬ (((b : ℤ) : ℚ) ≤ 0) := by
    rw [not_le]
    exact_mod_cast hb
  refine ⟨(if v.length ≤ 1 then [wTransposed] else [])
    ++ (if v.length % b.toNat ≠ 0 then [wTruncated] else [])
    ++ (if v.length / b.toNat = 1 then [wOneBloc] else []), ?_⟩
  simp only [syncAvI, syncAvCheck, NArr.li, NArr.col, h1, h2, if_false]
  rfl

/-- Unfolding of the integer path on a rectangular nonempty matrix. -/
lemma syncAvI_mat_ok (m : List (List ℚ)) (c : ℕ) (b : ℤ) (resid : Bool)
    (hne : m ≠ []) (hrect : ∀ row ∈ m, row.length = c)
    (hb : 0 < b) (hle : b ≤ (c : ℤ)) :
    ∃ w, syncAvI (.mat m) b resid =
      .ok ⟨w, .mat (m.map (fun row => savVec row (c / b.toNat) b.toNat)),
        c / b.toNat,
        if resid then
          some (.mat (List.zipWith
            (fun row srow => residVec row srow (c / b.toNat) c)
            m (m.map (fun row => savVec row (c / b.toNat) b.toNat))))
        else none⟩ := by
  have hcol : NArr.col (.mat m) = c := by
    rcases m with _ | ⟨r0, m'⟩
    · exact absurd rfl hne
    · simpa [NArr.col] using hrect r0 (by simp)
  have h1 : ¬ ((c : ℚ) < ((b : ℤ) : ℚ)) := by
    rw [not_lt]
    exact_mod_cast hle
  have h2 : ¬ (((b : ℤ) : ℚ) ≤ 0) := by
    rw [not_le]
    exact_mod_cast hb
  refine ⟨(if c ≤ m.length then [wTransposed] else [])
    ++ (if c % b.toNat ≠ 0 then [wTruncated] else [])
    ++ (if c / b.toNat = 1 then [wOneBloc] else []), ?_⟩
  simp only [syncAvI, syncAvCheck, NArr.li, h1, h2, if_false, hcol]
  rfl

/-- C1. For an integer `blocSize` with `0 < blocSize ≤ L`, `syncAv` returns
`numBlocks = ⌊L / blocSize⌋` and an average of length `blocSize`
(one such row per signal for matrix input) whose entry `j` is the mean of the
samples at offset `j` of the first `numBlocks` consecutive blocks; samples
past `numBlocks*blocSize` do not enter the average. -/
theorem C1_syncAv_integer_average :
    (∀ (ip : List ℚ → ℚ → ℚ) (v : List ℚ) (b : ℤ) (resid : Bool),
      0 < b → b ≤ (v.length : ℤ) →
      ∃ o s, syncAv ip (.vec v) (.int b) resid = .ok o ∧
        o.nbBlocs = v.length / b.toNat ∧
        o.sav = .vec s ∧ s.length = b.toNat ∧
        ∀ j < b.toNat, s.getD j 0 =
          (∑ k ∈ Finset.range (v.length / b.toNat), v.getD (k * b.toNat + j) 0)
            / ((v.length / b.toNat : ℕ) : ℚ)) ∧
    (∀ (ip : List ℚ → ℚ → ℚ) (m : List (List ℚ)) (c : ℕ) (b : ℤ) (resid : Bool),
      m ≠ [] → (∀ row ∈ m, row.length = c) → 0 < b → b ≤ (c : ℤ) →
      ∃ o s, syncAv ip (.mat m) (.int b) resid = .ok o ∧
        o.nbBlocs = c / b.toNat ∧
        o.sav = .mat s ∧ s.length = m.length ∧
        ∀ r < m.length, (s.getD r []).length = b.toNat ∧
          ∀ j < b.toNat, (s.getD r []).getD j 0 =
            (∑ k ∈ Finset.range (c / b.toNat),
              (m.getD r []).getD (k * b.toNat + j) 0)
              / ((c / b.toNat : ℕ) : ℚ)) := by
  constructor
  · intro ip v b resid hb hle
    obtain ⟨w, hw⟩ := syncAvI_vec_ok v b resid hb hle
    refine ⟨_, _, hw, rfl, rfl, savVec_length _ _ _, ?_⟩
    intro j hj
    rw [savVec_getD _ _ _ _ hj]
  · intro ip m c b resid hne hrect hb hle
    obtain ⟨w, hw⟩ := syncAvI_mat_ok m c b resid hne hrect hb hle
    refine ⟨_, _, hw, rfl, rfl, by simp, ?_⟩
    intro r hr
    rw [getD_map_list _ _ _ hr]
    exact ⟨savVec_length _ _ _, fun j hj => savVec_getD _ _ _ _ hj⟩

/-- Witness for C1 at `signal = [1,2,3,4,5]`, `blocSize = 2` (vector part) and
`signal = [[1,2,3,4],[4,3,2,1]]`, `blocSize = 2` (matrix part). -/
theorem C1_syncAv_integer_average_witness :
    ((0:ℤ) < 2 ∧ (2:ℤ) ≤ (([1,2,3,4,5] : List ℚ).length : ℤ) ∧
      ∃ o s, syncAv trivIp (.vec [1,2,3,4,5]) (.int 2) true = .ok o ∧
        o.nbBlocs = ([1,2,3,4,5] : List ℚ).length / (2:ℤ).toNat ∧
        o.sav = .vec s ∧ s.length = (2:ℤ).toNat ∧
        ∀ j < (2:ℤ).toNat, s.getD j 0 =
          (∑ k ∈ Finset.range (([1,2,3,4,5] : List ℚ).length / (2:ℤ).toNat),
            ([1,2,3,4,5] : List ℚ).getD (k * (2:ℤ).toNat + j) 0)
            / ((([1,2,3,4,5] : List ℚ).length / (2:ℤ).toNat : ℕ) : ℚ)) ∧
    (([[1,2,3,4],[4,3,2,1]] : List (List ℚ)) ≠ [] ∧
      ∃ o s, syncAv trivIp (.mat [[1,2,3,4],[4,3,2,1]]) (.int 2) false = .ok o ∧
        o.nbBlocs = 4 / (2:ℤ).toNat ∧
        o.sav = .mat s ∧ s.length = ([[1,2,3,4],[4,3,2,1]] : List (List ℚ)).length ∧
        ∀ r < ([[1,2,3,4],[4,3,2,1]] : List (List ℚ)).length,
          (s.getD r []).length = (2:ℤ).toNat ∧
          ∀ j < (2:ℤ).toNat, (s.getD r []).getD j 0 =
            (∑ k ∈ Finset.range (4 / (2:ℤ).toNat),
              (([[1,2,3,4],[4,3,2,1]] : List (List ℚ)).getD r []).getD
                (k * (2:ℤ).toNat + j) 0)
              / ((4 / (2:ℤ).toNat : ℕ) : ℚ)) :=
  ⟨⟨by decide, by decide,
    C1_syncAv_integer_average.1 trivIp [1,2,3,4,5] 2 true (by decide) (by decide)⟩,
   ⟨by decide,
    C1_syncAv_integer_average.2 trivIp [[1,2,3,4],[4,3,2,1]] 4 2 false
      (by decide) (by decide) (by decide) (by decide)⟩⟩

/-- Modelled from the spec: the residual the claim describes,
`signal_truncated - tile(average)`, where `signal_truncated` keeps only the
first `numBlocks*blockSize` samples and the average is tiled `numBlocks`
times. (To be compared with the code's `residVec`.) -/
def residualSpec (v sav : List ℚ) (nb b : ℕ) : List ℚ :=
  List.zipWith (fun a c => a - c) (v.take (nb*b)) (npTile sav nb)

/-- C2 counterexample: for `signal = [1,2,3,4,5]`, `blocSize = 2` the code's
residual has length 5 (the full signal length), not the truncated length 4,
so it differs from `signal_truncated - tile(average)`. -/
theorem C2_residual_counterexample :
    syncAv trivIp (.vec [1,2,3,4,5]) (.int 2) true
      = .ok ⟨[wTruncated], .vec [2,3], 2, some (.vec [-1,-1,1,1,3])⟩ ∧
    residualSpec [1,2,3,4,5] [2,3] 2 2 = [-1,-1,1,1] ∧
    ([-1,-1,1,1,3] : List ℚ) ≠ [-1,-1,1,1] :=
  ⟨by
    simp [syncAv, syncAvI, syncAvCheck, NArr.li, NArr.col, savVec,
      npMeanAxis0, npReshape2, npTile, residVec, wTruncated, exceptOkBind,
      List.range_succ, List.replicate, Function.comp]
    norm_num
    rfl,
   by
    simp [residualSpec, npTile, List.replicate]
    norm_num,
   by
    intro h
    have h2 := congrArg List.length h
    simp at h2⟩

/-- C2 (amended). The residual returned by `syncAv` has the full input
length `L`; entrywise it is `signal[i] - average[i mod blockSize]` (the
average tiled cyclically across the whole signal, tail included), and its
restriction to the first `numBlocks*blockSize` samples equals the claimed
`signal_truncated - tile(average)`. -/
theorem C2_residual_amended :
    ∀ (ip : List ℚ → ℚ → ℚ) (v : List ℚ) (b : ℤ),
      0 < b → b ≤ (v.length : ℤ) →
      ∃ o s r, syncAv ip (.vec v) (.int b) true = .ok o ∧
        o.sav = .vec s ∧ o.residu = some (.vec r) ∧
        r.length = v.length ∧
        (∀ i < v.length, r.getD i 0 = v.getD i 0 - s.getD (i % b.toNat) 0) ∧
        r.take (v.length / b.toNat * b.toNat)
          = residualSpec v s (v.length / b.toNat) b.toNat := by
  intro ip v b hb hle
  obtain ⟨w, hw⟩ := syncAvI_vec_ok v b true hb hle
  set bn := b.toNat with hbn
  set nb := v.length / bn with hnb
  have hbpos : 0 < bn := by omega
  have hsl : (savVec v nb bn).length = bn := savVec_length _ _ _
  have hcol2 : v.length ≤ (nb+1) * bn := le_of_lt (lt_div_succ_mul _ _ hbpos)
  have hcol1 : nb * bn ≤ v.length := Nat.div_mul_le_self _ _
  refine ⟨_, _, _, hw, rfl, rfl, ?_, ?_, ?_⟩
  · rw [residVec_length _ _ _ (by rw [hsl]; exact hcol2)]
  · intro i hi
    rw [residVec_getD _ _ _ _ (by omega : 0 < (savVec v nb bn).length)
      (by rw [hsl]; exact hcol2) hi, hsl]
  · unfold residVec residualSpec
    rw [List.take_zipWith]
    congr 1
    rw [List.take_take, min_eq_left hcol1]
    have hsplit : npTile (savVec v nb bn) (nb+1)
        = npTile (savVec v nb bn) nb ++ savVec v nb bn := by
      simp [npTile, List.replicate_succ']
    rw [hsplit, List.take_left' (by rw [npTile_length, hsl])]

/-- Witness for C2 (amended) at `signal = [1,2,3,4,5]`, `blocSize = 2`. -/
theorem C2_residual_amended_witness :
    (0:ℤ) < 2 ∧ (2:ℤ) ≤ (([1,2,3,4,5] : List ℚ).length : ℤ) ∧
    (∃ o s r, syncAv trivIp (.vec [1,2,3,4,5]) (.int 2) true = .ok o ∧
      o.sav = .vec s ∧ o.residu = some (.vec r) ∧
      r.length = ([1,2,3,4,5] : List ℚ).length ∧
      (∀ i < ([1,2,3,4,5] : List ℚ).length,
        r.getD i 0 = ([1,2,3,4,5] : List ℚ).getD i 0 - s.getD (i % (2:ℤ).toNat) 0) ∧
      r.take (([1,2,3,4,5] : List ℚ).length / (2:ℤ).toNat * (2:ℤ).toNat)
        = residualSpec [1,2,3,4,5] s (([1,2,3,4,5] : List ℚ).length / (2:ℤ).toNat)
            (2:ℤ).toNat) :=
  ⟨by decide, by decide,
    C2_residual_amended trivIp [1,2,3,4,5] 2 (by decide) (by decide)⟩

/-! ## Embedding of `circShift` (src/fbonnardot/signalproc/circShift.py)

The input array may hold complex values, but the output array
`decal = np.zeros(datas.shape)` (line 91) is allocated with the default
`float64` dtype, so every assignment into it casts to real — numpy emits a
`ComplexWarning` and discards the imaginary part.  The embedding therefore
returns rows of `ℝ`, taking `Complex.re` at each assignment site. -/

/-- The `datas` argument of `circShift`: a 1-D ndarray, a 2-D ndarray, or
a non-array Python object (rejected by the type check at line 76). -/
inductive CSInput where
  | nd1 (v : List ℂ)
  | nd2 (m : List (List ℂ))
  | other

/-- The `shift` argument: a scalar or a per-row vector. -/
inductive ShiftArg where
  | scalar (s : ℚ)
  | vecs (l : List ℚ)

/-- The normalized frequency grid `f` of lines 94-102 (even / odd column
count), a rational list of length `col`. -/
def fourierF (col : ℕ) : List ℚ :=
  let h := col / 2
  let pos := (List.range (h+1)).map (fun (k : ℕ) => (k : ℚ))
  let neg :=
    if col % 2 = 0 then (List.range (h-1)).map (fun (k : ℕ) => (k : ℚ) - h + 1)
    else (List.range h).map (fun (k : ℕ) => (k : ℚ) - h)
  (pos ++ neg).map (fun x => x / col)

/-- `np.fft.fft`: `X[k] = ∑ₙ x[n]·exp(-2πi·k·n/N)`. -/
noncomputable def dft (x : List ℂ) : List ℂ :=
  (List.range x.length).map (fun (k : ℕ) =>
    ∑ n ∈ Finset.range x.length,
      x.getD n 0 * Complex.exp (-2 * (Real.pi : ℂ) * Complex.I * k * n / x.length))

/-- `np.fft.ifft`: `x[n] = (1/N)·∑ₖ X[k]·exp(2πi·k·n/N)`. -/
noncomputable def idft (x : List ℂ) : List ℂ :=
  (List.range x.length).map (fun (n : ℕ) =>
    (∑ k ∈ Finset.range x.length,
      x.getD k 0 * Complex.exp (2 * (Real.pi : ℂ) * Complex.I * k * n / x.length))
      / x.length)

/-- The linear-phase factors `np.exp(-2j*np.pi*f*sht)` of line 125. -/
noncomputable def phaseRow (col : ℕ) (s : ℚ) : List ℂ :=
  (fourierF col).map (fun (f : ℚ) =>
    Complex.exp (-2 * (Real.pi : ℂ) * Complex.I * (f : ℂ) * (s : ℂ)))

/-- The frequency-domain shift of lines 123-128: FFT, multiply by the phase,
inverse FFT.  This is the complex result *before* it is stored into the
real-dtype `decal` array. -/
noncomputable def fourierShiftRow (row : List ℂ) (s : ℚ) (col : ℕ) : List ℂ :=
  idft (List.zipWith (fun a b => a * b) (dft row) (phaseRow col s))

/-- Shift normalization of lines 111-114: the `while sht<0: sht=sht+col`
loop followed by `int(sht % col)`; for `col > 0` this is exactly the
nonnegative Euclidean remainder of `⌊sht⌋` by `col`. -/
def normShift (s : ℚ) (col : ℕ) : ℕ := (⌊s⌋ % (col : ℤ)).toNat

/-- Integer-path rotation of lines 116-117:
`decal[sht:col] = datas[0:col-sht]; decal[0:sht] = datas[col-sht:col]`,
stored into the float64 `decal` row (hence `.re`). -/
def intShiftRow (row : List ℂ) (sht col : ℕ) : List ℝ :=
  (List.range col).map (fun j =>
    if sht ≤ j then (row.getD (j - sht) 0).re else (row.getD (col - sht + j) 0).re)

/-- One row of `circShift` (lines 105-134).  The integer test is
`sht == np.floor(sht) and forceft == False`.  On the Fourier branch the
result is stored into the float64 `decal` row whether or not the
`np.isreal(datas[index,0])` test succeeds: `np.real(...)` is taken when the
first entry is real, and the complex-to-float cast (numpy `ComplexWarning`)
discards the imaginary part otherwise — both amount to `Complex.re`. -/
noncomputable def circShiftRow (row : List ℂ) (s : ℚ) (col : ℕ) (forceft : Bool) :
    List ℝ :=
  if s = (⌊s⌋ : ℚ) ∧ forceft = false then
    intShiftRow row (normShift s col) col
  else
    let y := fourierShiftRow row s col
    if (row.getD 0 0).im = 0 then y.map Complex.re
    else y.map Complex.re

/-- `circShift` on a 2-D array (lines 83-136): broadcast a scalar shift to
all rows, reject a shift vector whose length differs from the row count,
then shift row by row. -/
noncomputable def circShiftM (m : List (List ℂ)) (shift : ShiftArg)
    (forceft : Bool) : Except String (List (List ℝ)) :=
  let li := m.length
  let col := (m.headD []).length
  let sv := match shift with
    | .scalar s => List.replicate li s
    | .vecs l => l
  if sv.length ≠ li then
    .error "If shift is a vector it must have its size equal to signals numbers."
  else
    .ok ((List.range li).map (fun i => circShiftRow (m.getD i []) (sv.getD i 0) col forceft))

/-- `circShift` (lines 76-136): non-arrays are rejected; a 1-D array is
wrapped as a single row and the single shifted row is returned. -/
noncomputable def circShift (d : CSInput) (shift : ShiftArg) (forceft : Bool) :
    Except String (List (List ℝ)) :=
  match d with
  | .other => .error "datas should be numpy arrays"
  | .nd1 v => circShiftM [v] shift forceft
  | .nd2 m => circShiftM m shift forceft

/-- `circShift` on a 1-D array with a scalar shift, returning `decal[0]`
(lines 79-81). -/
noncomputable def circShiftV (v : List ℂ) (s : ℚ) (forceft : Bool) :
    Except String (List ℝ) :=
  (circShift (.nd1 v) (.scalar s) forceft).map (fun dec => dec.headD [])

/-- Modelled from the spec: the exact sample rotation the claim describes,
`shifted[i] = signal[(i - shift) mod N]`, on a complex signal.
(To be compared with what the code returns.) -/
def rotSpec (v : List ℂ) (s : ℤ) : List ℂ :=
  (List.range v.length).map (fun (i : ℕ) =>
    v.getD (((i : ℤ) - s) % (v.length : ℤ)).toNat 0)

/-- The same rotation on a real signal. -/
def rotSpecR (v : List ℝ) (s : ℤ) : List ℝ :=
  (List.range v.length).map (fun (i : ℕ) =>
    v.getD (((i : ℤ) - s) % (v.length : ℤ)).toNat 0)

lemma emod_toNat_lt (a : ℤ) (n : ℕ) (hn : 0 < n) : (a % (n : ℤ)).toNat < n := by
  have h1 : 0 ≤ a % (n : ℤ) := Int.emod_nonneg _ (by exact_mod_cast hn.ne')
  have h2 : a % (n : ℤ) < n := Int.emod_lt_of_pos _ (by exact_mod_cast hn)
  omega

/-- The index used by the source rotation (branching on `sht ≤ j`) equals the
Euclidean-remainder index `(i - k) mod n` of the specification. -/
lemma rot_index (n : ℕ) (k : ℤ) (i : ℕ) (hn : 0 < n) (hi : i < n) :
    (((i : ℤ) - k) % (n : ℤ)).toNat
      = if (k % (n : ℤ)).toNat ≤ i then i - (k % (n : ℤ)).toNat
        else n - (k % (n : ℤ)).toNat + i := by
  set r := (k % (n : ℤ)).toNat with hrdef
  have hn' : (0 : ℤ) < n := by exact_mod_cast hn
  have hr0 : 0 ≤ k % (n : ℤ) := Int.emod_nonneg _ hn'.ne'
  have hrlt : k % (n : ℤ) < n := Int.emod_lt_of_pos _ hn'
  have hrc : (r : ℤ) = k % (n : ℤ) := Int.toNat_of_nonneg hr0
  have key : ((i : ℤ) - k) % n = ((i : ℤ) - r) % n := by
    conv_lhs => rw [Int.sub_emod]
    conv_rhs => rw [Int.sub_emod]
    congr 2
    rw [hrc, Int.emod_emod_of_dvd _ dvd_rfl]
  by_cases hc : r ≤ i
  · rw [key, Int.emod_eq_of_lt (by omega) (by omega), if_pos hc]
    omega
  · rw [key, (Int.add_mul_emod_self_left (a := (i : ℤ) - r) (b := (n : ℤ)) (c := 1)).symm,
      if_neg hc]
    rw [Int.emod_eq_of_lt (by omega) (by omega)]
    omega

/-- `circShift` on a 1-D array with a scalar shift reduces to a single row
shift. -/
lemma circShiftV_eq (v : List ℂ) (s : ℚ) (ff : Bool) :
    circShiftV v s ff = .ok (circShiftRow v s v.length ff) := by
  simp only [circShiftV, circShift, circShiftM, List.length_replicate,
    List.length_cons, List.length_nil, zero_add, ne_eq, not_true_eq_false,
    if_false, show List.range 1 = [0] from rfl, List.map_cons, List.map_nil]
  rfl

lemma intShiftRow_length (row : List ℂ) (sht col : ℕ) :
    (intShiftRow row sht col).length = col := by
  simp only [intShiftRow, List.length_map, List.length_range]

lemma rotSpec_length (v : List ℂ) (s : ℤ) : (rotSpec v s).length = v.length := by
  simp only [rotSpec, List.length_map, List.length_range]

/-- The integer path (lines 111-117) realizes the rotation
`j ↦ row[(j - k) mod n]` (up to the real-dtype cast). -/
lemma intShiftRow_rot (row : List ℂ) (k : ℤ) (hn : 0 < row.length) :
    intShiftRow row (normShift (k : ℚ) row.length) row.length
      = (rotSpec row k).map Complex.re := by
  have hfl : ⌊((k : ℤ) : ℚ)⌋ = k := Int.floor_intCast k
  apply List.ext_getElem
    (by simp only [intShiftRow_length, List.length_map, rotSpec_length])
  intro i h1 h2
  have hi : i < row.length := by
    simpa only [intShiftRow_length] using h1
  rw [List.getElem_map]
  simp only [intShiftRow, rotSpec, normShift, hfl, List.getElem_map,
    List.getElem_range]
  rw [rot_index row.length k i hn hi]
  rcases le_or_lt ((k % (row.length : ℤ)).toNat) i with hc | hc
  · rw [if_pos hc, if_pos hc]
  · rw [if_neg (not_le.mpr hc), if_neg (not_le.mpr hc)]

/-- On a real-valued signal the integer path returns exactly the rotation. -/
lemma circShift_int_real (v : List ℝ) (k : ℤ) (hne : v ≠ []) :
    circShiftV (v.map Complex.ofReal) (k : ℚ) false = .ok (rotSpecR v k) := by
  have hn : 0 < v.length := List.length_pos.mpr hne
  have hn2 : 0 < (v.map Complex.ofReal).length := by
    simpa only [List.length_map] using hn
  rw [circShiftV_eq]
  congr 1
  unfold circShiftRow
  rw [if_pos ⟨by rw [Int.floor_intCast], rfl⟩]
  rw [intShiftRow_rot _ k hn2]
  apply List.ext_getElem (by
    simp only [List.length_map, rotSpec_length, rotSpecR, List.length_range])
  intro i h1 h2
  have hi : i < v.length := by
    simpa only [List.length_map, rotSpec_length] using h1
  rw [List.getElem_map]
  simp only [rotSpec, rotSpecR, List.getElem_map, List.getElem_range,
    List.length_map]
  have hlt : (((i : ℤ) - k) % (v.length : ℤ)).toNat < v.length :=
    emod_toNat_lt _ _ hn
  rw [show ((0 : ℂ)) = Complex.ofReal 0 by norm_num]
  rw [getD_map Complex.ofReal v _ 0 hlt]
  simp

lemma rotSpecR_length (v : List ℝ) (k : ℤ) : (rotSpecR v k).length = v.length := by
  simp only [rotSpecR, List.length_map, List.length_range]

lemma rotSpecR_getD (v : List ℝ) (k : ℤ) (i : ℕ) (hi : i < v.length) :
    (rotSpecR v k).getD i 0 = v.getD (((i : ℤ) - k) % (v.length : ℤ)).toNat 0 := by
  unfold rotSpecR
  rw [getD_map_range, if_pos hi]

/-- Shifting by `k` and then by `-k` restores the signal. -/
lemma rotSpecR_inv (v : List ℝ) (k : ℤ) (hn : 0 < v.length) :
    rotSpecR (rotSpecR v k) (-k) = v := by
  apply List.ext_getElem (by simp only [rotSpecR_length])
  intro i h1 h2
  have hi : i < v.length := by simpa only [rotSpecR_length] using h1
  have hn' : (0 : ℤ) < v.length := by exact_mod_cast hn
  rw [getElem_eq_getD, getElem_eq_getD]
  show (rotSpecR (rotSpecR v k) (-k)).getD i 0 = v.getD i 0
  rw [rotSpecR_getD _ _ _ (by simpa only [rotSpecR_length] using hi)]
  rw [rotSpecR_length]
  rw [rotSpecR_getD _ _ _ (emod_toNat_lt _ _ hn)]
  congr 1
  have hsub : (((((i : ℤ) - -k) % (v.length : ℤ)).toNat : ℤ))
      = ((i : ℤ) + k) % (v.length : ℤ) := by
    rw [Int.toNat_of_nonneg (Int.emod_nonneg _ hn'.ne')]
    ring_nf
  rw [hsub]
  have hstep : (((i : ℤ) + k) % (v.length : ℤ) - k) % (v.length : ℤ)
      = ((i : ℤ) + k - k) % (v.length : ℤ) := by
    conv_lhs => rw [Int.sub_emod]
    conv_rhs => rw [Int.sub_emod]
    congr 2
    rw [Int.emod_emod_of_dvd _ dvd_rfl]
  rw [hstep]
  simp only [add_sub_cancel_right]
  rw [Int.emod_eq_of_lt (by omega) (by omega)]
  omega

/-- Shifting by zero is the identity. -/
lemma rotSpecR_zero (v : List ℝ) : rotSpecR v 0 = v := by
  unfold rotSpecR
  conv_rhs => rw [← map_range_getD v 0]
  refine List.map_congr_left (fun i hmem => ?_)
  have hi : i < v.length := List.mem_range.mp hmem
  congr 1
  rw [sub_zero, Int.emod_eq_of_lt (by omega) (by exact_mod_cast hi)]
  omega

/-- C4 counterexample: on the complex one-sample signal `[i]` with shift `0`
(integer path), the code returns the real-dtype array `[0.]` — the imaginary
part is discarded — whereas the claimed rotation is `[i]`. -/
theorem C4_circShift_counterexample :
    circShiftV [Complex.I] 0 false = .ok [(0 : ℝ)] ∧
    rotSpec [Complex.I] 0 = [Complex.I] ∧
    ([((0 : ℝ) : ℂ)] : List ℂ) ≠ rotSpec [Complex.I] 0 := by
  refine ⟨?_, ?_, ?_⟩
  · rw [circShiftV_eq]
    simp [circShiftRow, intShiftRow, normShift,
      show List.range 1 = [0] from rfl]
  · simp [rotSpec, show List.range 1 = [0] from rfl]
  · have h2 : rotSpec [Complex.I] 0 = [Complex.I] := by
      simp [rotSpec, show List.range 1 = [0] from rfl]
    rw [h2]
    simp [Complex.ext_iff]

/-- C4 (amended). For every *real-valued* nonempty 1-D signal and every
integer shift `k`, `circShift` with `forceFourier = false` returns the exact
sample rotation `shifted[i] = signal[(i-k) mod N]`; consequently the
round trip `circShift(circShift(signal,k),-k) = signal` and the zero-shift
identity hold exactly.  (For complex input the output array is real-dtype
and imaginary parts are lost, see the counterexample.) -/
theorem C4_circShift_integer_rotation_amended :
    ∀ (v : List ℝ) (k : ℤ), v ≠ [] →
      circShiftV (v.map Complex.ofReal) (k : ℚ) false = .ok (rotSpecR v k) ∧
      (∀ i < v.length, (rotSpecR v k).getD i 0
        = v.getD (((i : ℤ) - k) % (v.length : ℤ)).toNat 0) ∧
      circShiftV ((rotSpecR v k).map Complex.ofReal) ((-k : ℤ) : ℚ) false
        = .ok v ∧
      circShiftV (v.map Complex.ofReal) ((0 : ℤ) : ℚ) false = .ok v := by
  intro v k hne
  have hn : 0 < v.length := List.length_pos.mpr hne
  refine ⟨circShift_int_real v k hne, fun i hi => rotSpecR_getD v k i hi, ?_, ?_⟩
  · have hne2 : rotSpecR v k ≠ [] := by
      intro h
      have : (rotSpecR v k).length = 0 := by rw [h]; rfl
      rw [rotSpecR_length] at this
      omega
    rw [circShift_int_real _ (-k) hne2, rotSpecR_inv v k hn]
  · rw [circShift_int_real v 0 hne, rotSpecR_zero]

/-- Witness for C4 (amended) at `signal = [1,2,3]`, `shift = 1`. -/
theorem C4_circShift_integer_rotation_amended_witness :
    (([1,2,3] : List ℝ) ≠ []) ∧
    (circShiftV (([1,2,3] : List ℝ).map Complex.ofReal) ((1 : ℤ) : ℚ) false
        = .ok (rotSpecR [1,2,3] 1) ∧
      (∀ i < ([1,2,3] : List ℝ).length, (rotSpecR [1,2,3] 1).getD i 0
        = ([1,2,3] : List ℝ).getD
            (((i : ℤ) - 1) % ((([1,2,3] : List ℝ).length : ℕ) : ℤ)).toNat 0) ∧
      circShiftV ((rotSpecR [1,2,3] 1).map Complex.ofReal) ((-1 : ℤ) : ℚ) false
        = .ok [1,2,3] ∧
      circShiftV (([1,2,3] : List ℝ).map Complex.ofReal) ((0 : ℤ) : ℚ) false
        = .ok [1,2,3]) :=
  ⟨by simp, C4_circShift_integer_rotation_amended [1,2,3] 1 (by simp)⟩

/-- C5 (code bug): on the complex signal `[i]` with `forceFourier = true`,
the mathematical frequency-domain shift result — which the claim says is
returned with its imaginary part preserved — is `[i]`, but the code stores
it into the real-dtype `decal` array (`np.zeros(datas.shape)`, float64) and
returns `[0.]`: the imaginary part is discarded (numpy `ComplexWarning`). -/
theorem C5_circShift_complex_discarded :
    fourierShiftRow [Complex.I] 0 1 = [Complex.I] ∧
    circShiftV [Complex.I] 0 true = .ok [(0 : ℝ)] ∧
    ([((0 : ℝ) : ℂ)] : List ℂ) ≠ [Complex.I] := by
  have hF : fourierF 1 = [0] := by
    norm_num [fourierF, show List.range 1 = [0] from rfl,
      show List.range 0 = ([] : List ℕ) from rfl]
  have hphase : phaseRow 1 0 = [1] := by
    simp [phaseRow, hF]
  have hdft : dft [Complex.I] = [Complex.I] := by
    simp [dft, show List.range 1 = [0] from rfl, Finset.sum_range_one]
  have h1 : fourierShiftRow [Complex.I] 0 1 = [Complex.I] := by
    simp [fourierShiftRow, hdft, hphase, idft,
      show List.range 1 = [0] from rfl, Finset.sum_range_one]
  refine ⟨h1, ?_, by simp [Complex.ext_iff]⟩
  rw [circShiftV_eq]
  simp only [List.length_cons, List.length_nil, zero_add, circShiftRow]
  rw [if_neg (by simp)]
  simp [h1]


/-! ## Embedding of `synchronisation2` (src/fbonnardot/speed/synchronisation2.py)

The estimation loop and the ensemble phase are exact rational computations
except for three external collaborators, which are passed as total-function
parameters:
* `interp` — `scipy.interpolate.interp1d(·,·,'cubic')` used by `maxCxyint`
  (line 206): `interp corr x` is the interpolated correlation at `x`;
* `ceps` — the fft/log/`peakDetection` composite of the `ceps` branch
  (lines 237-245): `ceps prelev` is the selected peak `position`;
* `fracShift` — the fractional `circShift` call of line 278 (§4.3);
every theorem below holds for all instantiations of these parameters.
Plotting (`graph`) and the textual progress bar are out of scope. -/

/-- The external collaborators of `synchronisation2`. -/
structure Sync2Oracles where
  interp : List ℚ → ℚ → ℚ
  ceps : List ℚ → ℚ
  fracShift : List ℚ → ℚ → List ℚ

/-- The `param` argument: `None`, a scalar threshold, or a
`(threshold, min_slope)` tuple. -/
inductive Sync2Param where
  | none
  | pfloat (x : ℚ)
  | ptuple (a b : ℚ)
deriving DecidableEq, Repr

/-- The `period` argument: a scalar nominal period or a reference vector
(lines 159-163). -/
inductive PeriodArg where
  | scalar (n : ℕ)
  | refv (r : List ℚ)

/-- Safe read used inside the correlation sums: the value `v[i]` when the
index is in range, `0` otherwise (terms outside the overlap do not
contribute). -/
def qidx (v : List ℚ) (i : ℤ) : ℚ :=
  if 0 ≤ i ∧ i < (v.length : ℤ) then v.getD i.toNat 0 else 0

/-- `scipy.signal.correlate(a, v, 'full')`:
`z[n] = Σⱼ a[j] · v[j - n + len(v) - 1]` for `n < len(a)+len(v)-1`. -/
def correlateFull (a v : List ℚ) : List ℚ :=
  (List.range (a.length + v.length - 1)).map (fun (n : ℕ) =>
    ∑ j ∈ Finset.range a.length,
      a.getD j 0 * qidx v ((j : ℤ) - n + v.length - 1))

/-- `scipy.signal.correlate(a, v, 'valid')` with `len(v) ≥ len(a)`:
`z[k] = Σⱼ a[j] · v[j + (len(v)-len(a)) - k]` for `k ≤ len(v)-len(a)`. -/
def correlateValid (a v : List ℚ) : List ℚ :=
  (List.range (v.length - a.length + 1)).map (fun (k : ℕ) =>
    ∑ j ∈ Finset.range a.length,
      a.getD j 0 * qidx v ((j : ℤ) + ((v.length - a.length : ℕ) : ℤ) - k))

/-- The correlation normalisation factor of lines 165-176 as a per-lag
table of length `2p-1`: `none`/`circ` → 1, `biased` → `p`,
`unbiased` → `p - |tau|` for `tau = -(p-1)..(p-1)`. -/
def normTable (scaleopt : String) (p : ℕ) : List ℚ :=
  if scaleopt = "biased" then List.replicate (2*p - 1) (p : ℚ)
  else if scaleopt = "unbiased" then
    (List.range (2*p - 1)).map (fun (i : ℕ) => (p : ℚ) - |(i : ℚ) - ((p : ℚ) - 1)|)
  else List.replicate (2*p - 1) 1

/-- The analysis window `t = np.arange(period) + tbase` (`t` is only ever
shifted by scalars, so it stays contiguous). -/
def windowIdx (tbase : ℤ) (p : ℕ) : List ℤ :=
  (List.range p).map (fun (j : ℕ) => tbase + j)

/-- The correlation of lines 186-191: `circ` correlates the reference with
the twice-tiled window ('valid'); otherwise full correlation divided
elementwise by the normalisation table. -/
def computeCorr (scaleopt : String) (reference win : List ℚ) : List ℚ :=
  if scaleopt = "circ" then correlateValid reference (win ++ win)
  else List.zipWith (fun a b => a / b) (correlateFull reference win)
    (normTable scaleopt reference.length)

/-- State of the estimation loop: window base (`t = arange(p) + tbase`),
accumulated `offset`, and the `delta` list. -/
structure SyncState where
  tbase : ℤ
  offset : ℚ
  delta : List ℚ
deriving DecidableEq, Repr

/-- Lag estimation for one window (lines 185-246), producing the value
appended to `delta`.  Indexing follows numpy fancy-indexing semantics
(`npFancy`): out-of-bounds indices raise, negative in-range indices wrap.
The `baryCxy` division `np.sum(weight*xi)/np.sum(weight)` produces NaN in
Python when the weights sum to zero (later crashing `int(nan)` in the
ensemble phase); the embedding reports the error at the division. -/
def estimDelta (orc : Sync2Oracles) (signal reference : List ℚ) (p : ℕ)
    (method : String) (param : Sync2Param) (scaleopt : String)
    (tbase : ℤ) (offset : ℚ) : Except String ℚ :=
  if method = "maxCxy" then do
    let win ← npFancy signal (windowIdx tbase p)
    let corr := computeCorr scaleopt reference win
    .ok ((argmaxIdx corr : ℚ) - p + offset)
  else if method = "baryCxy" then do
    let win ← npFancy signal (windowIdx tbase p)
    let corr := computeCorr scaleopt reference win
    let xi := (List.range (2*p - 1)).map (fun (i : ℕ) => ((i : ℚ) + 1))
    if corr.length ≠ xi.length then
      .error "ValueError: operands could not be broadcast"
    else
      let weight := corr.map (fun c => |c|)
      if weight.sum = 0 then
        .error "nan barycenter (0/0 in np.sum(weight*xi)/np.sum(weight))"
      else
        let barycenter :=
          npRound ((List.zipWith (fun a b => a * b) weight xi).sum / weight.sum)
        .ok ((npRound (barycenter : ℚ) : ℚ) - p + offset)
  else if method = "maxCxyint" then do
    let win ← npFancy signal (windowIdx tbase p)
    let corr := computeCorr scaleopt reference win
    let icorr := (List.range ((corr.length - 1) * 10)).map
      (fun (k : ℕ) => orc.interp corr ((k : ℚ) / 10))
    .ok ((argmaxIdx icorr : ℚ) / 10 - p + offset)
  else if method = "threshold" then
    match param with
    | .pfloat thr => do
        let win ← npFancy signal (windowIdx tbase p)
        match win.findIdx? (fun w => decide (thr ≤ w)) with
        | some j => .ok (-(j : ℚ) + offset)
        | Option.none => .ok 0
    | _ => .error "ValueError: broadcast of a non-scalar threshold"
  else if method = "rthreshold" then
    match param with
    | .ptuple thr slope => do
        let w2 ← npFancy signal (windowIdx (tbase + 2) p)
        let w0 ← npFancy signal (windowIdx tbase p)
        let w1 ← npFancy signal (windowIdx (tbase + 1) p)
        match (List.range p).find? (fun j =>
            decide (slope / 2 < w2.getD j 0 - w0.getD j 0)
              && decide (thr ≤ w1.getD j 0)) with
        | some j => .ok (-(j : ℚ) + offset)
        | Option.none => .ok 0
    | _ => .error "TypeError: param is not subscriptable"
  else if method = "max" then do
    let win ← npFancy signal (windowIdx tbase p)
    .ok (-(argmaxIdx win : ℚ) + offset)
  else if method = "ceps" then do
    let win ← npFancy signal (windowIdx tbase p)
    let prelev := reference ++ win ++ List.replicate (2*p) 0
    .ok (orc.ceps prelev - 1 - p + offset)
  else .error "Illegal value for method."

/-- One iteration of the estimation loop (lines 185-258): estimate the lag,
append it to `delta`, apply slip compensation (lines 249-256) when enabled
and the incremental correction `delta[-1] - offset` exceeds 1 in magnitude,
then advance the window by one period (line 258). -/
def estimStep (orc : Sync2Oracles) (signal reference : List ℚ) (p : ℕ)
    (method : String) (param : Sync2Param) (scaleopt : String)
    (compens : Bool) (st : SyncState) : Except String SyncState := do
  let d ← estimDelta orc signal reference p method param scaleopt st.tbase st.offset
  if compens = true ∧ 1 < |d - st.offset| then
    .ok ⟨st.tbase - pyInt (d - st.offset) + p,
         st.offset + (pyInt (d - st.offset) : ℚ), st.delta ++ [d]⟩
  else
    .ok ⟨st.tbase + p, st.offset, st.delta ++ [d]⟩

/-- The `while t[-1] < len(signal)` loop (line 184).  Fuel makes the
recursion structural; every theorem about a terminating run is stated
through an arbitrary fuel value that suffices for it. -/
def estimLoop (orc : Sync2Oracles) (signal reference : List ℚ) (p : ℕ)
    (method : String) (param : Sync2Param) (scaleopt : String)
    (compens : Bool) : ℕ → SyncState → Except String SyncState
  | 0, _ => .error "loop fuel exhausted"
  | fuel+1, st =>
      if st.tbase + (p : ℤ) - 1 < (signal.length : ℤ) then do
        let st2 ← estimStep orc signal reference p method param scaleopt compens st
        estimLoop orc signal reference p method param scaleopt compens fuel st2
      else .ok st

/-- Row `i` of the synchronised ensemble (lines 272-280): if the shifted
window `t - int(delta2[i])` ends inside the signal, extract it, apply the
fractional circular shift when the fractional part `decdec` is nonzero, and
keep the first `period` samples; otherwise the row stays zero. -/
def ensembleRow (fracShift : List ℚ → ℚ → List ℚ) (signal : List ℚ) (p : ℕ)
    (i : ℕ) (d2 : ℚ) : Except String (List ℚ) :=
  if ((i : ℤ) * p + p - 1) - pyInt d2 < (signal.length : ℤ) then do
    let extrait ← npFancy signal
      ((List.range p).map (fun (j : ℕ) => (i : ℤ) * p + j - pyInt d2))
    let decdec := d2 - (pyInt d2 : ℚ)
    let row := if decdec ≠ 0 then fracShift extrait decdec else extrait
    .ok (row.take p)
  else .ok (List.replicate p 0)

/-- The ensemble loop of lines 270-280, row by row. -/
def buildEnsembleAux (fracShift : List ℚ → ℚ → List ℚ) (signal : List ℚ)
    (p : ℕ) : ℕ → List ℚ → Except String (List (List ℚ))
  | _, [] => .ok []
  | i, d :: ds => do
      let row ← ensembleRow fracShift signal p i d
      let rest ← buildEnsembleAux fracShift signal p (i+1) ds
      .ok (row :: rest)

/-- `synchr` built from the normalized deltas (lines 267-280). -/
def buildEnsemble (fracShift : List ℚ → ℚ → List ℚ) (signal : List ℚ)
    (p : ℕ) (delta2 : List ℚ) : Except String (List (List ℚ)) :=
  buildEnsembleAux fracShift signal p 0 delta2

def methodNames : List String :=
  ["maxCxy", "baryCxy", "maxCxyint", "threshold", "rthreshold", "max", "ceps"]

def scaleoptNames : List String := ["none", "biased", "unbiased", "circ"]

/-- Interpretation of the `period` parameter (lines 158-163): the length of
an explicit reference vector, or the scalar nominal period. -/
def periodOf : PeriodArg → ℕ
  | .refv r => r.length
  | .scalar n => n

/-- The reference cycle (lines 158-163): the given vector, or the first
`period` samples of the signal. -/
def referenceOf (signal : List ℚ) : PeriodArg → List ℚ
  | .refv r => r
  | .scalar n => signal.take n

/-- `synchronisation2` (lines 150-321): parameter checks, period/reference
interpretation, the estimation loop from `t = arange(period)`, and — when
`estsync` — the ensemble phase on `delta2 = delta - delta[0]`.
A `period` of 0 makes `t[-1]` fail in Python (empty `arange`), and an empty
`delta` makes `delta[0]` fail; both are modelled as errors. -/
def synchronisation2 (orc : Sync2Oracles) (signal : List ℚ)
    (periodArg : PeriodArg) (method : String) (param : Sync2Param)
    (scaleopt : String) (estsync compens : Bool) (fuel : ℕ) :
    Except String (Option (List (List ℚ)) × List ℚ) :=
  if method ∉ methodNames then .error "Illegal value for method."
  else if (method = "rthreshold" ∨ method = "threshold") ∧ param = Sync2Param.none then
    .error "You should give a threshold in param for threshold and trigger methods"
  else if scaleopt ∉ scaleoptNames then .error "Illegal value for scaleopt"
  else if periodOf periodArg = 0 then .error "IndexError: t[-1] on an empty window"
  else do
    let fin ← estimLoop orc signal (referenceOf signal periodArg)
      (periodOf periodArg) method param scaleopt compens fuel ⟨0, 0, []⟩
    if estsync then
      if fin.delta = [] then .error "IndexError: delta[0] on an empty delta"
      else do
        let E ← buildEnsemble orc.fracShift signal (periodOf periodArg)
          (fin.delta.map (fun x => x - fin.delta.headD 0))
        .ok (some E, fin.delta)
    else .ok (none, fin.delta)

/-- Trivial oracles (the theorems below never depend on their values). -/
def trivOrc : Sync2Oracles := ⟨fun _ _ => 0, fun _ => 0, fun l _ => l⟩

/-! ## C8: drift compensation -/

lemma exceptErrBind {α β : Type} (e : String) (f : α → Except String β) :
    (Except.error e >>= f : Except String β) = .error e := rfl

/-- Bookkeeping of one estimation step: the window base and the offset move
together by exactly one period, and one delta is appended. -/
lemma estimStep_key (orc : Sync2Oracles) (signal reference : List ℚ) (p : ℕ)
    (method : String) (param : Sync2Param) (scaleopt : String)
    (compens : Bool) (st st2 : SyncState)
    (h : estimStep orc signal reference p method param scaleopt compens st = .ok st2) :
    ((st2.tbase : ℚ) + st2.offset = (st.tbase : ℚ) + st.offset + p) ∧
    st2.delta.length = st.delta.length + 1 := by
  unfold estimStep at h
  cases hd : estimDelta orc signal reference p method param scaleopt st.tbase st.offset with
  | error e => rw [hd, exceptErrBind] at h; cases h
  | ok d =>
      rw [hd, exceptOkBind] at h
      split at h <;> cases h <;> constructor <;> simp <;> push_cast <;> ring

/-- C8. With `compensateDrift = true`, after each raw estimate `d` the
incremental correction is `d - offset`: when its magnitude exceeds 1 the
next window base moves by `period - int(correction)` and the integer part is
accumulated into `offset`; when it is at most 1 (or with
`compensateDrift = false`) the base advances by exactly one period and the
offset is unchanged.  Consequently, across the whole loop, every window
starts at the drift-corrected position `(#cycles so far)·period - offset`. -/
theorem C8_sync2_drift_compensation :
    (∀ (orc : Sync2Oracles) (signal reference : List ℚ) (p : ℕ)
       (method : String) (param : Sync2Param) (scaleopt : String)
       (st st2 : SyncState),
      estimStep orc signal reference p method param scaleopt true st = .ok st2 →
      ∃ d, st2.delta = st.delta ++ [d] ∧
        (1 < |d - st.offset| →
          st2.tbase = st.tbase + p - pyInt (d - st.offset) ∧
          st2.offset = st.offset + (pyInt (d - st.offset) : ℚ)) ∧
        (|d - st.offset| ≤ 1 →
          st2.tbase = st.tbase + p ∧ st2.offset = st.offset)) ∧
    (∀ (orc : Sync2Oracles) (signal reference : List ℚ) (p : ℕ)
       (method : String) (param : Sync2Param) (scaleopt : String)
       (st st2 : SyncState),
      estimStep orc signal reference p method param scaleopt false st = .ok st2 →
      ∃ d, st2.delta = st.delta ++ [d] ∧
        st2.tbase = st.tbase + p ∧ st2.offset = st.offset) ∧
    (∀ (orc : Sync2Oracles) (signal reference : List ℚ) (p : ℕ)
       (method : String) (param : Sync2Param) (scaleopt : String)
       (compens : Bool) (fuel : ℕ) (st st2 : SyncState),
      (st.tbase : ℚ) = st.delta.length * p - st.offset →
      estimLoop orc signal reference p method param scaleopt compens fuel st = .ok st2 →
      (st2.tbase : ℚ) = st2.delta.length * p - st2.offset) := by
  refine ⟨?_, ?_, ?_⟩
  · intro orc signal reference p method param scaleopt st st2 h
    unfold estimStep at h
    cases hd : estimDelta orc signal reference p method param scaleopt st.tbase st.offset with
    | error e => rw [hd, exceptErrBind] at h; cases h
    | ok d =>
        rw [hd, exceptOkBind] at h
        refine ⟨d, ?_⟩
        split at h
        · rename_i hcond
          cases h
          refine ⟨rfl, fun _ => ⟨?_, rfl⟩,
            fun hle => absurd hcond.2 (not_lt.mpr hle)⟩
          dsimp only
          omega
        · rename_i hcond
          cases h
          have hle : ¬ (1 < |d - st.offset|) := fun hlt => hcond ⟨rfl, hlt⟩
          exact ⟨rfl, fun hlt => absurd hlt hle, fun _ => ⟨rfl, rfl⟩⟩
  · intro orc signal reference p method param scaleopt st st2 h
    unfold estimStep at h
    cases hd : estimDelta orc signal reference p method param scaleopt st.tbase st.offset with
    | error e => rw [hd, exceptErrBind] at h; cases h
    | ok d =>
        rw [hd, exceptOkBind] at h
        rw [if_neg (by simp)] at h
        cases h
        exact ⟨d, rfl, rfl, rfl⟩
  · intro orc signal reference p method param scaleopt compens fuel
    induction fuel with
    | zero => intro st st2 _ h; cases h
    | succ fuel ih =>
        intro st st2 hinv h
        unfold estimLoop at h
        split at h
        · cases hs : estimStep orc signal reference p method param scaleopt compens st with
          | error e => rw [hs, exceptErrBind] at h; cases h
          | ok stm =>
              rw [hs, exceptOkBind] at h
              obtain ⟨hsum, hlen⟩ := estimStep_key _ _ _ _ _ _ _ _ _ _ hs
              refine ih stm st2 ?_ h
              rw [hlen]
              push_cast
              push_cast at hinv
              linarith
        · cases h
          exact hinv

/-- Witness for C8 at `signal = [0,0,1,0,0,0,0,0]`, `period = 4`,
`threshold` method with threshold 1: the first estimate is `-2`, the
correction `-2` exceeds 1 in magnitude, so the next base is `0+4-(-2) = 6`
and the offset becomes `-2`. -/
theorem C8_sync2_drift_compensation_witness :
    (estimStep trivOrc [0,0,1,0,0,0,0,0] [0,0,1,0] 4 "threshold" (.pfloat 1)
        "none" true ⟨0, 0, []⟩ = .ok ⟨6, -2, [-2]⟩) ∧
    (∃ d, (⟨6, -2, [-2]⟩ : SyncState).delta = ([] : List ℚ) ++ [d] ∧
      (1 < |d - (⟨0, 0, []⟩ : SyncState).offset| →
        (⟨6, -2, [-2]⟩ : SyncState).tbase
          = (⟨0, 0, []⟩ : SyncState).tbase + 4
              - pyInt (d - (⟨0, 0, []⟩ : SyncState).offset) ∧
        (⟨6, -2, [-2]⟩ : SyncState).offset
          = (⟨0, 0, []⟩ : SyncState).offset
              + (pyInt (d - (⟨0, 0, []⟩ : SyncState).offset) : ℚ)) ∧
      (|d - (⟨0, 0, []⟩ : SyncState).offset| ≤ 1 →
        (⟨6, -2, [-2]⟩ : SyncState).tbase = (⟨0, 0, []⟩ : SyncState).tbase + 4 ∧
        (⟨6, -2, [-2]⟩ : SyncState).offset = (⟨0, 0, []⟩ : SyncState).offset)) := by
  have hstep : estimStep trivOrc [0,0,1,0,0,0,0,0] [0,0,1,0] 4 "threshold"
      (.pfloat 1) "none" true ⟨0, 0, []⟩ = .ok ⟨6, -2, [-2]⟩ := by
    simp [estimStep, estimDelta, npFancy, npIndex, windowIdx, exceptOkBind,
      show List.range 4 = [0,1,2,3] from rfl, List.findIdx?, pyInt,
      show (decide ((1:ℚ) ≤ 0)) = false by norm_num,
      show (decide ((1:ℚ) ≤ 1)) = true by norm_num]
    have hc : ⌈(-2 : ℚ)⌉ = -2 := by
      rw [show ((-2 : ℚ)) = ((-2 : ℤ) : ℚ) by norm_num, Int.ceil_intCast]
    norm_num [pyInt, hc]
  exact ⟨hstep,
    C8_sync2_drift_compensation.1 trivOrc [0,0,1,0,0,0,0,0] [0,0,1,0] 4
      "threshold" (.pfloat 1) "none" ⟨0, 0, []⟩ ⟨6, -2, [-2]⟩ hstep⟩

/-! ## C6: ensemble reconstruction -/

lemma getD_map_of_lt {α β : Type} (f : α → β) (l : List α) (i : ℕ)
    (dβ : β) (dα : α) (h : i < l.length) :
    (l.map f).getD i dβ = f (l.getD i dα) := by
  rw [List.getD_eq_getElem?_getD, List.getElem?_map,
    List.getElem?_eq_getElem h, List.getD_eq_getElem?_getD,
    List.getElem?_eq_getElem h]
  rfl

lemma npIndex_ok (v : List ℚ) (i : ℤ) (x : ℚ) (h : npIndex v i = .ok x) :
    x = wrapIdx v i := by
  unfold npIndex at h
  unfold wrapIdx
  split at h
  · rename_i hc
    cases h
    rw [if_pos hc.1]
  · split at h
    · rename_i hc hc2
      cases h
      rw [if_neg (by omega)]
    · cases h

lemma npFancy_ok (v : List ℚ) :
    ∀ (idxs : List ℤ) (w : List ℚ), npFancy v idxs = .ok w →
      w = idxs.map (wrapIdx v) := by
  intro idxs
  induction idxs with
  | nil => intro w h; cases h; rfl
  | cons i is ih =>
      intro w h
      unfold npFancy at h
      cases hx : npIndex v i with
      | error e => rw [hx, exceptErrBind] at h; cases h
      | ok x =>
          rw [hx, exceptOkBind] at h
          cases hxs : npFancy v is with
          | error e => rw [hxs, exceptErrBind] at h; cases h
          | ok xs =>
              rw [hxs, exceptOkBind] at h
              cases h
              rw [List.map_cons, ← ih xs hxs, npIndex_ok v i x hx]

lemma buildEnsembleAux_ok (fracShift : List ℚ → ℚ → List ℚ) (signal : List ℚ)
    (p : ℕ) :
    ∀ (ds : List ℚ) (i : ℕ) (E : List (List ℚ)),
      buildEnsembleAux fracShift signal p i ds = .ok E →
      E.length = ds.length ∧
      ∀ j < ds.length,
        ensembleRow fracShift signal p (i + j) (ds.getD j 0) = .ok (E.getD j []) := by
  intro ds
  induction ds with
  | nil =>
      intro i E h
      cases h
      exact ⟨rfl, fun j hj => absurd hj (by simp)⟩
  | cons d rest ih =>
      intro i E h
      unfold buildEnsembleAux at h
      cases hr : ensembleRow fracShift signal p i d with
      | error e => rw [hr, exceptErrBind] at h; cases h
      | ok row =>
          rw [hr, exceptOkBind] at h
          cases hrest : buildEnsembleAux fracShift signal p (i+1) rest with
          | error e => rw [hrest, exceptErrBind] at h; cases h
          | ok E2 =>
              rw [hrest, exceptOkBind] at h
              cases h
              obtain ⟨hlen, hall⟩ := ih (i+1) E2 hrest
              refine ⟨by simp [hlen], ?_⟩
              intro j hj
              cases j with
              | zero => simpa using hr
              | succ j2 =>
                  have hrec := hall j2 (by simpa using hj)
                  have harith : i + (j2 + 1) = (i + 1) + j2 := by omega
                  rw [harith]
                  simpa [List.getD_cons_succ] using hrec

/-- C6. When `estsync` is set and `synchronisation2` succeeds, the ensemble
has one row per estimated delta; with `delta2 = delta - delta[0]` (the first
cycle normalized to zero offset), row `i` is the period-length window of the
signal at positions `i·period + j - int(delta2[i])` (numpy indexing, which
wraps in-range negative indices), with the fractional circular shift applied
when the fractional part of `delta2[i]` is nonzero; a row whose shifted
window would extend past the signal end stays entirely zero. -/
theorem C6_sync2_ensemble :
    ∀ (orc : Sync2Oracles) (signal : List ℚ) (periodArg : PeriodArg)
      (method : String) (param : Sync2Param) (scaleopt : String)
      (compens : Bool) (fuel : ℕ) (E : List (List ℚ)) (delta : List ℚ),
      synchronisation2 orc signal periodArg method param scaleopt true compens fuel
        = .ok (some E, delta) →
      ∀ (p : ℕ), p = periodOf periodArg →
      E.length = delta.length ∧
      ∀ i < delta.length,
        ∀ d2, d2 = delta.getD i 0 - delta.headD 0 →
        ((((i : ℤ) * p + p - 1) - pyInt d2 < (signal.length : ℤ) →
          E.getD i [] =
            (if d2 - (pyInt d2 : ℚ) ≠ 0 then
              (orc.fracShift ((List.range p).map
                (fun (j : ℕ) => wrapIdx signal ((i : ℤ) * p + j - pyInt d2)))
                (d2 - (pyInt d2 : ℚ))).take p
            else ((List.range p).map
              (fun (j : ℕ) => wrapIdx signal ((i : ℤ) * p + j - pyInt d2))).take p)) ∧
        (¬ (((i : ℤ) * p + p - 1) - pyInt d2 < (signal.length : ℤ)) →
          E.getD i [] = List.replicate p 0)) := by
  intro orc signal periodArg method param scaleopt compens fuel E delta hok p hp
  subst hp
  unfold synchronisation2 at hok
  by_cases h1 : method ∉ methodNames
  · rw [if_pos h1] at hok; exact absurd hok (by simp)
  rw [if_neg h1] at hok
  by_cases h2 : (method = "rthreshold" ∨ method = "threshold") ∧ param = Sync2Param.none
  · rw [if_pos h2] at hok; exact absurd hok (by simp)
  rw [if_neg h2] at hok
  by_cases h3 : scaleopt ∉ scaleoptNames
  · rw [if_pos h3] at hok; exact absurd hok (by simp)
  rw [if_neg h3] at hok
  by_cases h4 : periodOf periodArg = 0
  · rw [if_pos h4] at hok; exact absurd hok (by simp)
  rw [if_neg h4] at hok
  cases hloop : estimLoop orc signal (referenceOf signal periodArg)
      (periodOf periodArg) method param scaleopt compens fuel ⟨0, 0, []⟩ with
  | error e => rw [hloop, exceptErrBind] at hok; exact absurd hok (by simp)
  | ok fin =>
      rw [hloop, exceptOkBind, if_pos rfl] at hok
      by_cases h5 : fin.delta = []
      · rw [if_pos h5] at hok; exact absurd hok (by simp)
      rw [if_neg h5] at hok
      cases hE : buildEnsemble orc.fracShift signal (periodOf periodArg)
          (fin.delta.map (fun x => x - fin.delta.headD 0)) with
      | error e => rw [hE, exceptErrBind] at hok; exact absurd hok (by simp)
      | ok E2 =>
          rw [hE, exceptOkBind] at hok
          simp only [Except.ok.injEq, Prod.mk.injEq, Option.some.injEq] at hok
          obtain ⟨hEeq, hdelta⟩ := hok
          subst hdelta
          subst hEeq
          obtain ⟨hlen, hall⟩ := buildEnsembleAux_ok orc.fracShift signal _
            (fin.delta.map (fun x => x - fin.delta.headD 0)) 0 _ hE
          refine ⟨by simpa using hlen, ?_⟩
          intro i hi d2 hd2
          have hrow := hall i (by simpa using hi)
          rw [getD_map_of_lt (fun x => x - fin.delta.headD 0)
            fin.delta i 0 0 hi] at hrow
          rw [← hd2, Nat.zero_add] at hrow
          constructor
          · intro hg
            unfold ensembleRow at hrow
            rw [if_pos hg] at hrow
            cases hf : npFancy signal
                ((List.range (periodOf periodArg)).map
                  (fun (j : ℕ) => (i : ℤ) * (periodOf periodArg) + j - pyInt d2)) with
            | error e => rw [hf, exceptErrBind] at hrow; exact absurd hrow (by simp)
            | ok extrait =>
                rw [hf, exceptOkBind] at hrow
                have hext := npFancy_ok signal _ extrait hf
                rw [List.map_map] at hext
                simp only [Except.ok.injEq] at hrow
                rw [← hrow, hext]
                split
                · rfl
                · rfl
          · intro hg
            unfold ensembleRow at hrow
            rw [if_neg hg] at hrow
            simp only [Except.ok.injEq] at hrow
            exact hrow.symm

/-- Witness for C6: `signal = [1,0,1,0]`, `period = 2`, `threshold` method
with threshold 1, no drift compensation. -/
theorem C6_sync2_ensemble_witness :
    (synchronisation2 trivOrc [1,0,1,0] (.scalar 2) "threshold" (.pfloat 1)
        "none" true false 6 = .ok (some [[1,0],[1,0]], [0,0])) ∧
    ((2 : ℕ) = periodOf (.scalar 2)) ∧
    (([[1,0],[1,0]] : List (List ℚ)).length = ([0,0] : List ℚ).length ∧
      ∀ i < ([0,0] : List ℚ).length,
        ∀ d2, d2 = ([0,0] : List ℚ).getD i 0 - ([0,0] : List ℚ).headD 0 →
        ((((i : ℤ) * (2:ℕ) + (2:ℕ) - 1) - pyInt d2
            < (([1,0,1,0] : List ℚ).length : ℤ) →
          ([[1,0],[1,0]] : List (List ℚ)).getD i [] =
            (if d2 - (pyInt d2 : ℚ) ≠ 0 then
              (trivOrc.fracShift ((List.range (2:ℕ)).map
                (fun (j : ℕ) => wrapIdx [1,0,1,0] ((i : ℤ) * (2:ℕ) + j - pyInt d2)))
                (d2 - (pyInt d2 : ℚ))).take (2:ℕ)
            else ((List.range (2:ℕ)).map
              (fun (j : ℕ) => wrapIdx [1,0,1,0]
                ((i : ℤ) * (2:ℕ) + j - pyInt d2))).take (2:ℕ))) ∧
        (¬ (((i : ℤ) * (2:ℕ) + (2:ℕ) - 1) - pyInt d2
            < (([1,0,1,0] : List ℚ).length : ℤ)) →
          ([[1,0],[1,0]] : List (List ℚ)).getD i [] = List.replicate (2:ℕ) 0))) := by
  have heval : synchronisation2 trivOrc [1,0,1,0] (.scalar 2) "threshold"
      (.pfloat 1) "none" true false 6 = .ok (some [[1,0],[1,0]], [0,0]) := by
    simp [synchronisation2, methodNames, scaleoptNames, periodOf, referenceOf,
      estimLoop, estimStep, estimDelta, npFancy, npIndex, windowIdx,
      buildEnsemble, buildEnsembleAux, ensembleRow, pyInt, exceptOkBind,
      List.findIdx?, show List.range 2 = [0,1] from rfl,
      show (decide ((1:ℚ) ≤ 1)) = true by norm_num,
      show (decide ((1:ℚ) ≤ 0)) = false by norm_num, List.replicate]
  exact ⟨heval, rfl,
    C6_sync2_ensemble trivOrc [1,0,1,0] (.scalar 2) "threshold" (.pfloat 1)
      "none" false 6 [[1,0],[1,0]] [0,0] heval 2 rfl⟩

/-! ## C7: the `rthreshold` window overrun -/

/-- C7 (code bug): with valid arguments — `signal` of length 5, scalar
period 4 (fits in the signal), supported method `rthreshold` with its
`(threshold, min_slope)` tuple present, valid `scaleopt` — the first
iteration evaluates `signal[t+2]` with `t = [0,1,2,3]`, i.e. index 5 in a
length-5 signal, and numpy raises `IndexError`: the per-cycle loop does not
simply stop at the signal end as the claim states. -/
theorem C7_sync2_rthreshold_overrun :
    synchronisation2 trivOrc [0,0,0,0,0] (.scalar 4) "rthreshold" (.ptuple 0 0)
      "none" true false 10 = .error "IndexError: index out of bounds" := by
  rfl

/-! ## C9: immediate InvalidArgument errors -/

/-- C9. Each malformed-parameter condition produces the corresponding
`ValueError` immediately: `syncAv` for `blocSize > L` and for
`blocSize ≤ 0`; `synchronisation2` for an unknown method name and for
`threshold`/`rthreshold` with `param = None`; `circShift` for non-array
input and for a shift vector whose length differs from the row count. -/
theorem C9_invalid_argument_errors :
    (∀ (ip : List ℚ → ℚ → ℚ) (d : NArr) (bs : PyNum) (resid : Bool),
      (d.col : ℚ) < bs.val →
      syncAv ip d bs resid = .error "The datas must have at least 1 blocs.") ∧
    (∀ (ip : List ℚ → ℚ → ℚ) (d : NArr) (bs : PyNum) (resid : Bool),
      bs.val ≤ 0 →
      syncAv ip d bs resid = .error "Bloc must be strictly positive.") ∧
    (∀ (orc : Sync2Oracles) (signal : List ℚ) (periodArg : PeriodArg)
       (param : Sync2Param) (scaleopt : String) (estsync compens : Bool)
       (fuel : ℕ) (method : String),
      method ∉ methodNames →
      synchronisation2 orc signal periodArg method param scaleopt estsync compens fuel
        = .error "Illegal value for method.") ∧
    (∀ (orc : Sync2Oracles) (signal : List ℚ) (periodArg : PeriodArg)
       (scaleopt : String) (estsync compens : Bool) (fuel : ℕ) (method : String),
      method = "threshold" ∨ method = "rthreshold" →
      synchronisation2 orc signal periodArg method Sync2Param.none scaleopt
        estsync compens fuel
        = .error "You should give a threshold in param for threshold and trigger methods") ∧
    (∀ (shift : ShiftArg) (forceft : Bool),
      circShift .other shift forceft = .error "datas should be numpy arrays") ∧
    (∀ (m : List (List ℂ)) (l : List ℚ) (forceft : Bool),
      l.length ≠ m.length →
      circShift (.nd2 m) (.vecs l) forceft
        = .error "If shift is a vector it must have its size equal to signals numbers.") := by
  refine ⟨?_, ?_, ?_, ?_, ?_, ?_⟩
  · intro ip d bs resid h
    cases bs with
    | int n =>
        show syncAvI d n resid = _
        simp only [syncAvI, syncAvCheck]
        rw [if_pos (by simpa [PyNum.val] using h)]
        rfl
    | float q =>
        simp only [syncAv, syncAvCheck]
        rw [if_pos (by simpa [PyNum.val] using h)]
        rfl
  · intro ip d bs resid h
    have hcol : ¬ ((d.col : ℚ) < bs.val) := by
      rw [not_lt]
      calc bs.val ≤ 0 := h
      _ ≤ (d.col : ℚ) := by positivity
    cases bs with
    | int n =>
        show syncAvI d n resid = _
        simp only [syncAvI, syncAvCheck]
        rw [if_neg (by simpa [PyNum.val] using hcol),
          if_pos (by simpa [PyNum.val] using h)]
        rfl
    | float q =>
        simp only [syncAv, syncAvCheck]
        rw [if_neg (by simpa [PyNum.val] using hcol),
          if_pos (by simpa [PyNum.val] using h)]
        rfl
  · intro orc signal periodArg param scaleopt estsync compens fuel method h
    unfold synchronisation2
    rw [if_pos h]
  · intro orc signal periodArg scaleopt estsync compens fuel method h
    unfold synchronisation2
    rcases h with h | h <;> subst h
    · rw [if_neg (by simp [methodNames]), if_pos (by simp)]
    · rw [if_neg (by simp [methodNames]), if_pos (by simp)]
  · intro shift forceft
    rfl
  · intro m l forceft h
    show circShiftM m (.vecs l) forceft = _
    unfold circShiftM
    rw [if_pos h]

/-- Witness for C9, one concrete instantiation per error case. -/
theorem C9_invalid_argument_errors_witness :
    (syncAv trivIp (.vec [1,2,3]) (.int 4) false
      = .error "The datas must have at least 1 blocs.") ∧
    (syncAv trivIp (.vec [1,2,3]) (.int 0) false
      = .error "Bloc must be strictly positive.") ∧
    (synchronisation2 trivOrc [1,2,3] (.scalar 2) "bogus" Sync2Param.none
      "none" true false 5 = .error "Illegal value for method.") ∧
    (synchronisation2 trivOrc [1,2,3] (.scalar 2) "threshold" Sync2Param.none
      "none" true false 5
      = .error "You should give a threshold in param for threshold and trigger methods") ∧
    (circShift .other (.scalar 1) false = .error "datas should be numpy arrays") ∧
    (circShift (.nd2 [[1]]) (.vecs [1,2]) false
      = .error "If shift is a vector it must have its size equal to signals numbers.") :=
  ⟨C9_invalid_argument_errors.1 trivIp (.vec [1,2,3]) (.int 4) false
      (by norm_num [NArr.col, PyNum.val]),
   C9_invalid_argument_errors.2.1 trivIp (.vec [1,2,3]) (.int 0) false
      (by norm_num [PyNum.val]),
   C9_invalid_argument_errors.2.2.1 trivOrc [1,2,3] (.scalar 2) Sync2Param.none
      "none" true false 5 "bogus" (by decide),
   C9_invalid_argument_errors.2.2.2.1 trivOrc [1,2,3] (.scalar 2) "none"
      true false 5 "threshold" (Or.inl rfl),
   C9_invalid_argument_errors.2.2.2.2.1 (.scalar 1) false,
   C9_invalid_argument_errors.2.2.2.2.2 [[1]] [1,2] false (by decide)⟩

/-! ## C3: the non-integer path on matrix input -/

/-- C3 (code bug): for a 2-row matrix and the non-integer block size `2.5`
(0 < 2.5 ≤ 6 = L), the checks pass and the resampling warning is emitted,
but the matrix branch then executes
`donnees2 = np.zeros(li, int(np.ceil((col-1)/step)))` — the resampled length
is passed as the numpy `dtype` argument, so `donnees2` is 1-D (or the dtype
is rejected) and the 2-D assignment `donnees2[index,:]` raises instead of
resampling the rows. -/
theorem C3_syncAv_matrix_resampling_crash :
    syncAv trivIp (.mat [[1,2,3,4,5,6],[6,5,4,3,2,1]]) (.float (5/2)) false
      = .error "numpy error: np.zeros(li, dtype) misuse in the matrix resampling branch" := by
  simp [syncAv, syncAvCheck, NArr.li, NArr.col, exceptOkBind]
  norm_num
  rfl

/-! ## C10: dispatch on the Python type of `blocSize` -/

/-- A concrete interpolation oracle that agrees with the data at the integer
grid knots (`knotIp row k = row[k-1]` for integer `k`): every interpolating
scheme — in particular the cubic `interp1d` of the source — reproduces the
data values at its own grid points, and with an integer-valued float block
size the resampling step is 1, so only grid knots are ever evaluated. -/
def knotIp : List ℚ → ℚ → ℚ := fun row x => row.getD (⌊x⌋ - 1).toNat 0

/-- C10.  `syncAv` dispatches on the Python type of `blocSize`
(`type(blocSize) is not int`): a float block size — integer-valued or not —
always goes through the resampling path (the resampling warning is emitted
and the result is the integer path applied to the resampled signal with
block size `⌈blocSize⌉`); an int-typed block size goes directly to the
integer path; and `syncAv(signal, 2)` and `syncAv(signal, 2.0)` return
different results on `signal = [0,1,2,3]` (2 blocks versus 1, different
averages), because resampling with step 1 drops the last sample. -/
theorem C10_syncAv_type_dispatch :
    (∀ (ip : List ℚ → ℚ → ℚ) (v : List ℚ) (q : ℚ) (resid : Bool) (o : SyncOut),
      0 < q → q ≤ (v.length : ℚ) →
      syncAvI (.vec (resampleVec ip v (q / (⌈q⌉ : ℚ)))) ⌈q⌉ resid = .ok o →
      syncAv ip (.vec v) (.float q) resid
        = .ok ⟨(if v.length ≤ 1 then [wTransposed] else [])
              ++ wResample :: o.warns, o.sav, o.nbBlocs, o.residu⟩) ∧
    (∀ (ip : List ℚ → ℚ → ℚ) (d : NArr) (n : ℤ) (resid : Bool),
      syncAv ip d (.int n) resid = syncAvI d n resid) ∧
    (syncAv knotIp (.vec [0,1,2,3]) (.int 2) false
        = .ok ⟨[], .vec [1,2], 2, none⟩ ∧
      syncAv knotIp (.vec [0,1,2,3]) (.float 2) false
        = .ok ⟨[wResample, wTruncated, wOneBloc], .vec [0,1], 1, none⟩ ∧
      (⟨[], .vec [1,2], 2, none⟩ : SyncOut)
        ≠ ⟨[wResample, wTruncated, wOneBloc], .vec [0,1], 1, none⟩) := by
  refine ⟨?_, ?_, ?_, ?_, ?_⟩
  · intro ip v q resid o hq hle hok
    obtain ⟨ow, os, onb, ores⟩ := o
    simp only [syncAv, syncAvCheck, NArr.li, NArr.col]
    rw [if_neg (not_lt.mpr hle), if_neg (not_le.mpr hq)]
    rw [exceptOkBind, hok, exceptOkBind]
    simp [List.append_assoc]
  · intro ip d n resid
    rfl
  · simp [syncAv, syncAvI, syncAvCheck, NArr.li, NArr.col, savVec,
      npMeanAxis0, npReshape2, npTile, exceptOkBind,
      show List.range 2 = [0,1] from rfl, show List.range 4 = [0,1,2,3] from rfl,
      List.replicate, Function.comp]
    norm_num
    rfl
  · simp [syncAv, syncAvI, syncAvCheck, NArr.li, NArr.col, savVec,
      resampleVec, knotIp, npMeanAxis0, npReshape2, npTile, exceptOkBind,
      show List.range 3 = [0,1,2] from rfl, show List.range 1 = [0] from rfl,
      show List.range 2 = [0,1] from rfl, show List.range 4 = [0,1,2,3] from rfl,
      List.replicate, Function.comp]
    norm_num
    simp [exceptOkBind, show List.range 3 = [0,1,2] from rfl,
      show List.range 1 = [0] from rfl, Function.comp]
  · simp

/-- Witness for C10 at `signal = [0,1,2,3]`, `blocSize = 2.0`. -/
theorem C10_syncAv_type_dispatch_witness :
    ((0 : ℚ) < 2 ∧ (2 : ℚ) ≤ (([0,1,2,3] : List ℚ).length : ℚ)) ∧
    (syncAvI (.vec (resampleVec knotIp [0,1,2,3] (2 / (⌈(2:ℚ)⌉ : ℚ)))) ⌈(2:ℚ)⌉ false
      = .ok ⟨[wTruncated, wOneBloc], .vec [0,1], 1, none⟩) ∧
    (syncAv knotIp (.vec [0,1,2,3]) (.float 2) false
      = .ok ⟨(if ([0,1,2,3] : List ℚ).length ≤ 1 then [wTransposed] else [])
          ++ wResample
            :: (⟨[wTruncated, wOneBloc], .vec [0,1], 1, none⟩ : SyncOut).warns,
          (⟨[wTruncated, wOneBloc], .vec [0,1], 1, none⟩ : SyncOut).sav,
          (⟨[wTruncated, wOneBloc], .vec [0,1], 1, none⟩ : SyncOut).nbBlocs,
          (⟨[wTruncated, wOneBloc], .vec [0,1], 1, none⟩ : SyncOut).residu⟩) := by
  have hI : syncAvI (.vec (resampleVec knotIp [0,1,2,3] (2 / (⌈(2:ℚ)⌉ : ℚ))))
      ⌈(2:ℚ)⌉ false = .ok ⟨[wTruncated, wOneBloc], .vec [0,1], 1, none⟩ := by
    simp [syncAvI, syncAvCheck, NArr.li, NArr.col, savVec, resampleVec, knotIp,
      npMeanAxis0, npReshape2, npTile, exceptOkBind,
      show List.range 3 = [0,1,2] from rfl, show List.range 1 = [0] from rfl,
      show List.range 2 = [0,1] from rfl, List.replicate, Function.comp]
    norm_num
    simp [exceptOkBind, show List.range 3 = [0,1,2] from rfl,
      show List.range 1 = [0] from rfl, Function.comp]
  exact ⟨⟨by norm_num, by norm_num⟩, hI,
    C10_syncAv_type_dispatch.1 knotIp [0,1,2,3] 2 false
      ⟨[wTruncated, wOneBloc], .vec [0,1], 1, none⟩
      (by norm_num) (by norm_num) hI⟩

end PyShare
